import Mathlib

set_option maxHeartbeats 1000000

set_option linter.unnecessarySeqFocus false

/-!
Shallow embedding of the opencode work-distribution core: the LRU cache
(`packages/app/src/utils/cache.ts`), the bounded deduplicating `AsyncQueue`
and the adaptive worker pool `work` (the queue/pool source file).

Modelling conventions:
* JavaScript `Map<string, V>` is an association list in insertion order;
  `Map.set` on an existing key keeps its position, a new key is appended,
  and iteration visits entries in list order (deleting the entry being
  visited, as the source does, is safe and modelled by threading the state
  through a fold over the original entry list).
* `Date.now()` is an explicit `now : Nat` argument to every operation that
  reads the clock.
* `Infinity` defaults (`maxEntries`, `ttlMs`, `maxBytes`, `maxSize`) are
  `Option` fields where `none` means "no limit": every comparison the
  source performs against `Infinity` is `false`, which is what the `none`
  branches return.
* Callbacks (`onEvict`, `onError`, `onProgress`) are modelled as logs
  carried in the state: one list element per invocation, in call order.
* The `while` loop of `evictToMakeRoomFor` can diverge in the source (an
  eviction pass that removes nothing); the model runs it on fuel and
  returns `none` exactly when the source loops forever, so `some` results
  correspond to calls that return.
-/

/-- Association-list lookup, modelling JavaScript `Map.get`: the first
(and, for a real `Map`, only) binding of the key. -/
def assocGet {A : Type} : List (String × A) → String → Option A
  | [], _ => none
  | ke :: rest, k => if ke.1 = k then some ke.2 else assocGet rest k

/-- Association-list update, modelling `Map.set`: an existing key keeps its
insertion position, a new key is appended at the end. -/
def assocSet {A : Type} : List (String × A) → String → A → List (String × A)
  | [], k, v => [(k, v)]
  | ke :: rest, k, v => if ke.1 = k then (k, v) :: rest else ke :: assocSet rest k v

/-- Association-list removal, modelling `Map.delete` of the (unique) binding. -/
def assocErase {A : Type} : List (String × A) → String → List (String × A)
  | [], _ => []
  | ke :: rest, k => if ke.1 = k then rest else ke :: assocErase rest k

/-- Entry stored by `createLruCache`: `{ value, lastAccess, createdAt }`. -/
structure CacheEntry (T : Type) where
  value : T
  lastAccess : Nat
  createdAt : Nat
deriving Repr, DecidableEq

/-- Configuration of `createLruCache` (`CacheOpts`); `none` models the
`Infinity` defaults and `sizeOf` defaults to the constant-zero function. -/
structure CacheOpts (T : Type) where
  maxEntries : Option Nat := none
  ttlMs : Option Nat := none
  maxBytes : Option Int := none
  sizeOf : T → Nat := fun _ => 0

/-- State owned by a `createLruCache` instance: the entry map in insertion
order, the running byte total (`currentBytes`, an integer because the
source can drive it negative), and the log of `onEvict` invocations. -/
structure LruCache (T : Type) where
  entries : List (String × CacheEntry T) := []
  currentBytes : Int := 0
  evictLog : List (String × T) := []
deriving Repr, DecidableEq

namespace LruCache

variable {T : Type}

/-- TTL test `now - entry.createdAt > ttlMs` (false when `ttlMs` is the
`Infinity` default; truncated `Nat` subtraction agrees with the source's
comparison because a non-positive age never exceeds a non-negative ttl). -/
def isExpired (opts : CacheOpts T) (now : Nat) (e : CacheEntry T) : Bool :=
  match opts.ttlMs with
  | none => false
  | some t => decide (now - e.createdAt > t)

/-- Internal `delete_`: subtracts the byte contribution, fires `onEvict`
(appends to the log), removes the entry; returns whether one existed. -/
def delete_ (opts : CacheOpts T) (c : LruCache T) (k : String) : Bool × LruCache T :=
  match assocGet c.entries k with
  | none => (false, c)
  | some e =>
      (true,
        { entries := assocErase c.entries k
          currentBytes := c.currentBytes - (opts.sizeOf e.value : Int)
          evictLog := c.evictLog ++ [(k, e.value)] })

/-- Source `evictExpired`: walk the entries, deleting every expired one. -/
def evictExpired (opts : CacheOpts T) (now : Nat) (c : LruCache T) : LruCache T :=
  c.entries.foldl
    (fun acc ke => if isExpired opts now ke.2 then (delete_ opts acc ke.1).2 else acc) c

/-- Source `evictOne`'s scan: the key of the entry with the smallest
`lastAccess`, ties broken by iteration (insertion) order; `oldestAccess`
starts at `Infinity`, so the first entry always becomes the candidate. -/
def findOldest : List (String × CacheEntry T) → Option String
  | l =>
    (l.foldl
      (fun (acc : Option (String × Nat)) ke =>
        match acc with
        | none => some (ke.1, ke.2.lastAccess)
        | some ka => if ke.2.lastAccess < ka.2 then some (ke.1, ke.2.lastAccess) else acc)
      none).map Prod.fst

/-- Source `evictOne`: delete the least-recently-used entry.  The guard
`if (oldestKey)` is a JavaScript truthiness test, so the empty-string key
is (incorrectly but faithfully) never deleted. -/
def evictOne (opts : CacheOpts T) (c : LruCache T) : LruCache T :=
  match findOldest c.entries with
  | none => c
  | some k => if k = "" then c else (delete_ opts c k).2

/-- Loop condition of `evictToMakeRoomFor`:
`cache.size >= maxEntries || currentBytes + entrySize > maxBytes`. -/
def overLimit (opts : CacheOpts T) (esize : Nat) (c : LruCache T) : Bool :=
  (match opts.maxEntries with
   | some m => decide (c.entries.length ≥ m)
   | none => false)
  || (match opts.maxBytes with
      | some b => decide (c.currentBytes + (esize : Int) > b)
      | none => false)

/-- The `while` loop of `evictToMakeRoomFor`, on fuel.  `none` models the
source looping forever (an iteration that evicts nothing leaves the
condition true); a `some` result is exactly a call that returns. -/
def evictLoop (opts : CacheOpts T) (esize : Nat) : Nat → LruCache T → Option (LruCache T)
  | 0, c => if overLimit opts esize c then none else some c
  | fuel + 1, c =>
      if overLimit opts esize c then
        if c.entries.length = 0 then some c
        else evictLoop opts esize fuel (evictOne opts c)
      else some c

/-- Source `evictToMakeRoomFor`: sweep expired entries, then evict LRU
entries while over the entry-count or byte budget. -/
def evictToMakeRoomFor (opts : CacheOpts T) (now : Nat) (v : T) (c : LruCache T) :
    Option (LruCache T) :=
  let c1 := evictExpired opts now c
  evictLoop opts (opts.sizeOf v) (c1.entries.length + 1) c1

/-- Source `set`: subtract the byte contribution of an existing binding,
make room, then insert the fresh entry and add its size. -/
def set (opts : CacheOpts T) (now : Nat) (c : LruCache T) (k : String) (v : T) :
    Option (LruCache T) :=
  let c0 :=
    match assocGet c.entries k with
    | some e => { c with currentBytes := c.currentBytes - (opts.sizeOf e.value : Int) }
    | none => c
  (evictToMakeRoomFor opts now v c0).map fun c1 =>
    { c1 with
      entries := assocSet c1.entries k { value := v, lastAccess := now, createdAt := now }
      currentBytes := c1.currentBytes + (opts.sizeOf v : Int) }

/-- Source `get`: expired entries are deleted and reported absent;
otherwise `lastAccess` is refreshed and the value returned. -/
def get (opts : CacheOpts T) (now : Nat) (c : LruCache T) (k : String) :
    Option T × LruCache T :=
  match assocGet c.entries k with
  | none => (none, c)
  | some e =>
      if isExpired opts now e then (none, (delete_ opts c k).2)
      else (some e.value, { c with entries := assocSet c.entries k { e with lastAccess := now } })

/-- Source `has`: same expiry semantics as `get` but no recency refresh. -/
def has (opts : CacheOpts T) (now : Nat) (c : LruCache T) (k : String) :
    Bool × LruCache T :=
  match assocGet c.entries k with
  | none => (false, c)
  | some e => if isExpired opts now e then (false, (delete_ opts c k).2) else (true, c)

/-- Source `peek`: the raw stored value, no TTL check, no recency update. -/
def peek (c : LruCache T) (k : String) : Option T :=
  (assocGet c.entries k).map (fun e => e.value)

/-- Public `delete`, which simply delegates to the internal `delete_`. -/
def deleteKey (opts : CacheOpts T) (c : LruCache T) (k : String) : Bool × LruCache T :=
  delete_ opts c k

/-- Source `clear`: fire `onEvict` for every entry, then reset. -/
def clear (c : LruCache T) : LruCache T :=
  { entries := []
    currentBytes := 0
    evictLog := c.evictLog ++ c.entries.map (fun ke => (ke.1, ke.2.value)) }

/-- Accessor `size`. -/
def size (c : LruCache T) : Nat := c.entries.length

/-- Accessor `byteSize`. -/
def byteSize (c : LruCache T) : Int := c.currentBytes

/-- Source `stats`: `{ size, byteSize, keys }` snapshot. -/
def stats (c : LruCache T) : Nat × Int × List String :=
  (c.entries.length, c.currentBytes, c.entries.map Prod.fst)

/-- Exact sum of `sizeOf value` over the currently-live entries. -/
def liveBytes (opts : CacheOpts T) (c : LruCache T) : Int :=
  (c.entries.map (fun ke => (opts.sizeOf ke.2.value : Int))).sum

/-- The cache's core invariant as the spec states it: the running byte
total equals the exact sum of `sizeOf` over live entries. -/
def byteInvariant (opts : CacheOpts T) (c : LruCache T) : Prop :=
  c.currentBytes = liveBytes opts c

instance (opts : CacheOpts T) (c : LruCache T) : Decidable (byteInvariant opts c) := by
  unfold byteInvariant; infer_instance

end LruCache

/-- Queue drop strategies: `"oldest" | "newest" | "block"`. -/
inductive DropStrategy
  | oldest
  | newest
  | block
deriving Repr, DecidableEq

/-- The queue's `QueueMetrics` record. -/
structure QueueMetrics where
  enqueued : Nat := 0
  dequeued : Nat := 0
  dropped : Nat := 0
  cacheHits : Nat := 0
  cacheMisses : Nat := 0
  currentSize : Nat := 0
deriving Repr, DecidableEq

/-- The queue source's `CacheEntry<T>`: `{ value, expires }` of the
deduplication map. -/
structure QueueCacheEntry (T : Type) where
  value : T
  expires : Nat
deriving Repr, DecidableEq

/-- State of an `AsyncQueue<T>`.  The `head`/`tail`/`size` singly-linked
chain is the list `buffer` (head first, `size = buffer.length`); the
`resolvers` array holds identifiers of suspended consumers, oldest first,
with `nextWaiterId` supplying fresh identifiers; `cache`, `cacheKeyFn` and
`cacheTTL` are `null` (`none`) unless the constructor enabled dedup. -/
structure AsyncQueue (T : Type) where
  buffer : List T := []
  resolvers : List Nat := []
  nextWaiterId : Nat := 0
  cache : Option (List (String × QueueCacheEntry T)) := none
  cacheKeyFn : Option (T → String) := none
  cacheTTL : Option Nat := none
  maxSize : Option Nat := none
  dropStrategy : DropStrategy := .oldest
  metrics : QueueMetrics := {}

/-- Constructor options of `AsyncQueue` (every field optional). -/
structure QueueOptions (T : Type) where
  maxSize : Option Nat := none
  dropStrategy : Option DropStrategy := none
  enableCache : Option Bool := none
  cacheKeyFn : Option (T → String) := none
  cacheTTL : Option Nat := none

/-- Outcome of one `push` call: `returned` is the boolean result (`none`
when the `block` strategy suspends the caller), `q` the queue afterwards,
and `delivered` the `(waiter id, value)` pair handed to a resolver, if
`push` resolved one. -/
structure PushResult (T : Type) where
  returned : Option Bool
  q : AsyncQueue T
  delivered : Option (Nat × T)

/-- The `AsyncQueue` constructor.  `jsonStringify` stands for the
`JSON.stringify` default key function.  Dedup state is initialised exactly
when `options.enableCache` is true. -/
def mkQueue {T : Type} (jsonStringify : T → String) (o : QueueOptions T) : AsyncQueue T :=
  { buffer := []
    resolvers := []
    nextWaiterId := 0
    maxSize := o.maxSize
    dropStrategy := o.dropStrategy.getD .oldest
    cache := if o.enableCache.getD false then some [] else none
    cacheKeyFn := if o.enableCache.getD false then some (o.cacheKeyFn.getD jsonStringify) else none
    cacheTTL := if o.enableCache.getD false then some (o.cacheTTL.getD 5000) else none
    metrics := {} }

namespace AsyncQueue

variable {T : Type}

/-- Source `enqueueNode`: append at the tail, bump `enqueued` and
`currentSize`. -/
def enqueueNode (q : AsyncQueue T) (item : T) : AsyncQueue T :=
  { q with
    buffer := q.buffer ++ [item]
    metrics :=
      { q.metrics with
        enqueued := q.metrics.enqueued + 1
        currentSize := q.buffer.length + 1 } }

/-- Source `dequeueNode`: pop the head (or `null` on an empty queue),
bump `dequeued` and `currentSize`. -/
def dequeueNode (q : AsyncQueue T) : Option T × AsyncQueue T :=
  match q.buffer with
  | [] => (none, q)
  | v :: rest =>
      (some v,
        { q with
          buffer := rest
          metrics :=
            { q.metrics with
              dequeued := q.metrics.dequeued + 1
              currentSize := rest.length } })

/-- Source `cleanupCache`: drop dedup entries with `expires <= now`. -/
def cleanupCache (now : Nat) (q : AsyncQueue T) : AsyncQueue T :=
  match q.cache with
  | none => q
  | some c => { q with cache := some (c.filter (fun ke => decide (now < ke.2.expires))) }

/-- Tail of `push` (source lines after the capacity check): store the item
in the dedup map and sweep expired entries when dedup is enabled, append
the item, then resolve the oldest waiter with it — note the source does
not remove the appended node when a waiter is resolved. -/
def pushTail (now : Nat) (item : T) (q : AsyncQueue T) : PushResult T :=
  let q1 :=
    match q.cache, q.cacheKeyFn with
    | some c, some keyFn =>
        cleanupCache now
          { q with
            cache := some (assocSet c (keyFn item)
              { value := item, expires := now + q.cacheTTL.getD 5000 }) }
    | _, _ => q
  let q2 := enqueueNode q1 item
  match q2.resolvers with
  | r :: rs => { returned := some true, q := { q2 with resolvers := rs }, delivered := some (r, item) }
  | [] => { returned := some true, q := q2, delivered := none }

/-- Capacity step of `push`: when `size >= maxSize`, refuse (`newest`),
evict the head and proceed (`oldest`), or suspend (`block`, modelled as
`returned = none` with the state unchanged). -/
def pushRest (now : Nat) (item : T) (q : AsyncQueue T) : PushResult T :=
  let full :=
    match q.maxSize with
    | none => false
    | some m => decide (q.buffer.length ≥ m)
  if full then
    match q.dropStrategy with
    | .newest =>
        { returned := some false
          q := { q with metrics := { q.metrics with dropped := q.metrics.dropped + 1 } }
          delivered := none }
    | .oldest =>
        let q1 := (dequeueNode q).2
        pushTail now item { q1 with metrics := { q1.metrics with dropped := q1.metrics.dropped + 1 } }
    | .block => { returned := none, q := q, delivered := none }
  else pushTail now item q

/-- Source `push`: the dedup lookup runs first when the cache is enabled —
a non-expired hit records `cacheHits`, delivers the cached value to the
oldest waiter or enqueues it, and returns `true` before any capacity
check; a miss records `cacheMisses` and falls through. -/
def push (now : Nat) (item : T) (q : AsyncQueue T) : PushResult T :=
  match q.cache, q.cacheKeyFn with
  | some c, some keyFn =>
      match assocGet c (keyFn item) with
      | some e =>
          if now < e.expires then
            let q1 := { q with metrics := { q.metrics with cacheHits := q.metrics.cacheHits + 1 } }
            match q1.resolvers with
            | r :: rs =>
                { returned := some true
                  q := { q1 with resolvers := rs }
                  delivered := some (r, e.value) }
            | [] => { returned := some true, q := enqueueNode q1 e.value, delivered := none }
          else
            pushRest now item
              { q with metrics := { q.metrics with cacheMisses := q.metrics.cacheMisses + 1 } }
      | none =>
          pushRest now item
            { q with metrics := { q.metrics with cacheMisses := q.metrics.cacheMisses + 1 } }
  | _, _ => pushRest now item q

/-- Source `next`.  `truthy` models JavaScript truthiness of a `T` value:
the source tests `if (item)` on the already-dequeued head, so a truthy
item is returned and anything else (empty queue, or a falsy dequeued
value) registers a fresh waiter and suspends (`none`). -/
def next (truthy : T → Bool) (q : AsyncQueue T) : Option T × AsyncQueue T :=
  let r := dequeueNode q
  match r.1 with
  | some v =>
      if truthy v then (some v, r.2)
      else
        (none,
          { r.2 with
            resolvers := r.2.resolvers ++ [r.2.nextWaiterId]
            nextWaiterId := r.2.nextWaiterId + 1 })
  | none =>
      (none,
        { r.2 with
          resolvers := r.2.resolvers ++ [r.2.nextWaiterId]
          nextWaiterId := r.2.nextWaiterId + 1 })

/-- Source `getMetrics`: an immutable snapshot of the metrics record. -/
def getMetrics (q : AsyncQueue T) : QueueMetrics := q.metrics

end AsyncQueue

/-- JavaScript truthiness of a number: zero is falsy. -/
def natTruthy (n : Nat) : Bool := decide (n ≠ 0)

/-- Apply a list of `(now, item)` pushes in order, keeping the queue state. -/
def runPushes {T : Type} (ops : List (Nat × T)) (q : AsyncQueue T) : AsyncQueue T :=
  ops.foldl (fun acc op => (AsyncQueue.push op.1 op.2 acc).q) q

/-- Concurrency spec of `work`: a fixed integer or a `{min, max}` range. -/
inductive Concurrency
  | fixed (n : Nat)
  | range (lo hi : Nat)
deriving Repr, DecidableEq

/-- Effective `minConcurrency` of a spec. -/
def Concurrency.minOf : Concurrency → Nat
  | .fixed n => n
  | .range lo _ => lo

/-- Effective `maxConcurrency` of a spec. -/
def Concurrency.maxOf : Concurrency → Nat
  | .fixed n => n
  | .range _ hi => hi

/-- The `WorkMetrics` record returned by `work`. -/
structure WorkMetrics where
  completed : Nat
  failed : Nat
  total : Nat
  currentConcurrency : Nat
deriving Repr, DecidableEq

/-- Options of `work` that influence control flow.  The `onProgress` and
`onError` callbacks are modelled as the logs in `WorkState`. -/
structure WorkOptions where
  batchSize : Option Nat := none
  enableBatching : Option Bool := none

/-- Mutable run state of one `work` invocation: the `completed`/`failed`
counters, the log of `onError` invocations (`(error, item)` per call), the
log of `onProgress` invocations (`(completed + failed, total)` per call),
and the success flags pushed to the shared result queue, in push order.
The pending list is threaded separately. -/
structure WorkState (T E : Type) where
  completed : Nat := 0
  failed : Nat := 0
  errorLog : List (E × T) := []
  progressLog : List (Nat × Nat) := []
  results : List Bool := []
deriving Repr, DecidableEq

/-- Whether a user operation outcome is a rejection. -/
def isFailure {E A : Type} : Except E A → Bool
  | .ok _ => false
  | .error _ => true

/-- The `(error, item)` pair `onError` receives for a failing item. -/
def errOf {T E : Type} (fn : T → Except E Unit) (item : T) : Option (E × T) :=
  match fn item with
  | .error e => some (e, item)
  | .ok _ => none

/-- Per-item body of `processBatch`: run `fn`, count the outcome, publish
a result record, invoke `onError` on failure, then `onProgress` with the
updated `completed + failed`. -/
def processItem {T E : Type} (fn : T → Except E Unit) (total : Nat)
    (st : WorkState T E) (item : T) : WorkState T E :=
  let st1 :=
    match fn item with
    | .ok _ => { st with completed := st.completed + 1, results := st.results ++ [true] }
    | .error e =>
        { st with
          failed := st.failed + 1
          results := st.results ++ [false]
          errorLog := st.errorLog ++ [(e, item)] }
  { st1 with progressLog := st1.progressLog ++ [(st1.completed + st1.failed, total)] }

/-- Source `processBatch`: the items of a batch are launched together and,
with the synchronous `fn` of this embedding, settle in batch order. -/
def processBatch {T E : Type} (fn : T → Except E Unit) (total : Nat)
    (st : WorkState T E) (batch : List T) : WorkState T E :=
  batch.foldl (processItem fn total) st

/-- `Math.ceil (a / b)` on naturals. -/
def ceilDiv (a b : Nat) : Nat := (a + b - 1) / b

/-- One worker's loop, on fuel (each iteration of the source loop removes
at least one pending item when `batchSize ≥ 1`, so fuel
`pending.length + 1` is enough for every terminating source run).  The
pending list is held reversed: `Array.pop` takes the last element, here
the list head.  `active` is the `activeWorkers` count observed by this
worker's scale-down check. -/
def workerSteps {T E : Type} (fn : T → Except E Unit) (total minC bs : Nat)
    (batching : Bool) (active : Nat) :
    Nat → List T → WorkState T E → List T × WorkState T E
  | 0, pending, st => (pending, st)
  | fuel + 1, pending, st =>
    if pending.length = 0 then (pending, st)
    else if active > ceilDiv pending.length bs ∧ active > minC then (pending, st)
    else if batching then
      let batch := pending.take bs
      let rest := pending.drop bs
      if batch.length > 0 then
        workerSteps fn total minC bs batching active fuel rest (processBatch fn total st batch)
      else workerSteps fn total minC bs batching active fuel rest st
    else
      match pending with
      | [] => (pending, st)
      | item :: rest =>
          workerSteps fn total minC bs batching active fuel rest
            (processBatch fn total st [item])

/-- Run the launched workers one after the other (the cooperative
schedule in which workers complete in launch order): worker `i` runs with
`activeWorkers = active`, and the count drops by one as each returns. -/
def runWorkers {T E : Type} (fn : T → Except E Unit) (total minC bs : Nat)
    (batching : Bool) : Nat → Nat → List T → WorkState T E → List T × WorkState T E
  | 0, _, pending, st => (pending, st)
  | n + 1, active, pending, st =>
      let r := workerSteps fn total minC bs batching active (pending.length + 1) pending st
      runWorkers fn total minC bs batching n (active - 1) r.1 r.2

/-- Source `work`, modelled under the cooperative schedule in which every
`fn` call settles before the 100 ms `setInterval` scaler first fires (the
scaler therefore never spawns) and workers complete in launch order; the
per-item counter and log effects are schedule-independent.  `fn` is the
user operation, `Except.error` modelling a rejected promise.  The
returned `currentConcurrency` is the `activeWorkers` count after all
modelled workers returned. -/
def work {T E : Type} (conc : Concurrency) (items : List T)
    (fn : T → Except E Unit) (opts : WorkOptions) : WorkMetrics × WorkState T E :=
  let total := items.length
  let minC := conc.minOf
  let bs := opts.batchSize.getD 1
  let batching := opts.enableBatching.getD (decide (bs > 1))
  let initialWorkers := min minC (ceilDiv total bs)
  let r := runWorkers fn total minC bs batching initialWorkers initialWorkers items.reverse {}
  ({ completed := r.2.completed, failed := r.2.failed, total := total, currentConcurrency := 0 },
    r.2)

/-! ## Claim C1 -/

/-- C1 (code bug evaluation): with one consumer suspended in `next()` and
nothing buffered, `push 42` resolves the oldest waiter with the item AND
leaves the item in the buffer — the buffered length grows from 0 to 1 and
a later `next()` dequeues the same value again, so the delivery is not
point-to-point as the spec requires. -/
theorem push_with_waiter_also_buffers :
    let q0 : AsyncQueue Nat := mkQueue toString {}
    let q1 := (AsyncQueue.next natTruthy q0).2
    let r := AsyncQueue.push 0 42 q1
    q1.resolvers = [0] ∧ q1.buffer = [] ∧
    r.returned = some true ∧ r.delivered = some (0, 42) ∧
    r.q.buffer = [42] ∧ r.q.buffer.length = 1 ∧
    (AsyncQueue.next natTruthy r.q).1 = some 42 := by
  refine ⟨rfl, rfl, rfl, rfl, rfl, rfl, rfl⟩

/-! ## Claim C2 -/

/-- Configuration of the byte-total failing run: identity `sizeOf` and a
10 ms TTL. -/
def c2Opts : CacheOpts Nat := { ttlMs := some 10, sizeOf := fun n => n }

/-- C2 (code bug evaluation): `set a 5` at time 0 then `set a 7` at time
100 (the entry now expired).  The overwrite first subtracts 5 from the
byte total, then `evictExpired` deletes the same still-present entry and
subtracts 5 again, so after the call `byteSize = 2` while the exact sum of
`sizeOf` over live entries is 7 — the core invariant is broken. -/
theorem cache_overwrite_expired_breaks_byte_total :
    (LruCache.set c2Opts 0 {} "a" 5).bind (fun c => LruCache.set c2Opts 100 c "a" 7)
      = some { entries := [("a", { value := 7, lastAccess := 100, createdAt := 100 })]
               currentBytes := 2
               evictLog := [("a", 5)] } ∧
    ¬ LruCache.byteInvariant c2Opts
        { entries := [("a", { value := 7, lastAccess := 100, createdAt := 100 })]
          currentBytes := 2
          evictLog := [("a", 5)] } := by
  exact ⟨rfl, by decide⟩

/-! ## Claim C3 -/

namespace AsyncQueue

theorem pushTail_cacheHits {T : Type} (now : Nat) (item : T) (q : AsyncQueue T) :
    (pushTail now item q).q.metrics.cacheHits = q.metrics.cacheHits := by
  obtain ⟨buf, res, nid, cach, keyf, ttl, ms, ds, m⟩ := q
  cases cach <;> cases keyf <;> cases res <;> simp [pushTail, cleanupCache, enqueueNode]

theorem pushTail_cacheMisses {T : Type} (now : Nat) (item : T) (q : AsyncQueue T) :
    (pushTail now item q).q.metrics.cacheMisses = q.metrics.cacheMisses := by
  obtain ⟨buf, res, nid, cach, keyf, ttl, ms, ds, m⟩ := q
  cases cach <;> cases keyf <;> cases res <;> simp [pushTail, cleanupCache, enqueueNode]

theorem pushTail_cacheKeyFn {T : Type} (now : Nat) (item : T) (q : AsyncQueue T) :
    (pushTail now item q).q.cacheKeyFn = q.cacheKeyFn := by
  obtain ⟨buf, res, nid, cach, keyf, ttl, ms, ds, m⟩ := q
  cases cach <;> cases keyf <;> cases res <;> simp [pushTail, cleanupCache, enqueueNode]

theorem pushTail_cache_isSome {T : Type} (now : Nat) (item : T) (q : AsyncQueue T) :
    (pushTail now item q).q.cache.isSome = q.cache.isSome := by
  obtain ⟨buf, res, nid, cach, keyf, ttl, ms, ds, m⟩ := q
  cases cach <;> cases keyf <;> cases res <;> simp [pushTail, cleanupCache, enqueueNode]

theorem pushRest_cacheHits {T : Type} (now : Nat) (item : T) (q : AsyncQueue T) :
    (pushRest now item q).q.metrics.cacheHits = q.metrics.cacheHits := by
  obtain ⟨buf, res, nid, cach, keyf, ttl, ms, ds, m⟩ := q
  cases ms <;> cases ds <;> cases buf <;>
    simp [pushRest, dequeueNode, pushTail_cacheHits] <;>
    split <;> simp [pushTail_cacheHits]

theorem pushRest_cacheMisses {T : Type} (now : Nat) (item : T) (q : AsyncQueue T) :
    (pushRest now item q).q.metrics.cacheMisses = q.metrics.cacheMisses := by
  obtain ⟨buf, res, nid, cach, keyf, ttl, ms, ds, m⟩ := q
  cases ms <;> cases ds <;> cases buf <;>
    simp [pushRest, dequeueNode, pushTail_cacheMisses] <;>
    split <;> simp [pushTail_cacheMisses]

theorem pushRest_cacheKeyFn {T : Type} (now : Nat) (item : T) (q : AsyncQueue T) :
    (pushRest now item q).q.cacheKeyFn = q.cacheKeyFn := by
  obtain ⟨buf, res, nid, cach, keyf, ttl, ms, ds, m⟩ := q
  cases ms <;> cases ds <;> cases buf <;>
    simp [pushRest, dequeueNode, pushTail_cacheKeyFn] <;>
    split <;> simp [pushTail_cacheKeyFn]

theorem pushRest_cache_isSome {T : Type} (now : Nat) (item : T) (q : AsyncQueue T) :
    (pushRest now item q).q.cache.isSome = q.cache.isSome := by
  obtain ⟨buf, res, nid, cach, keyf, ttl, ms, ds, m⟩ := q
  cases ms <;> cases ds <;> cases buf <;>
    simp [pushRest, dequeueNode, pushTail_cache_isSome] <;>
    split <;> simp [pushTail_cache_isSome]

theorem push_cacheKeyFn {T : Type} (now : Nat) (item : T) (q : AsyncQueue T) :
    (push now item q).q.cacheKeyFn = q.cacheKeyFn := by
  obtain ⟨buf, res, nid, cach, keyf, ttl, ms, ds, m⟩ := q
  cases cach with
  | none => cases keyf <;> simp [push, pushRest_cacheKeyFn]
  | some c =>
    cases keyf with
    | none => simp [push, pushRest_cacheKeyFn]
    | some f =>
      simp only [push]
      cases hg : assocGet c (f item) with
      | none => simp [pushRest_cacheKeyFn]
      | some e =>
        simp only [hg]
        cases res <;> (split <;> simp [pushRest_cacheKeyFn, enqueueNode])

theorem push_cache_isSome {T : Type} (now : Nat) (item : T) (q : AsyncQueue T) :
    (push now item q).q.cache.isSome = q.cache.isSome := by
  obtain ⟨buf, res, nid, cach, keyf, ttl, ms, ds, m⟩ := q
  cases cach with
  | none => cases keyf <;> simp [push, pushRest_cache_isSome]
  | some c =>
    cases keyf with
    | none => simp [push, pushRest_cache_isSome]
    | some f =>
      simp only [push]
      cases hg : assocGet c (f item) with
      | none => simp [pushRest_cache_isSome]
      | some e =>
        simp only [hg]
        cases res <;> (split <;> simp [pushRest_cache_isSome, enqueueNode])

/-- With dedup enabled, every `push` performs exactly one dedup lookup:
`cacheHits + cacheMisses` grows by exactly one. -/
theorem push_counts {T : Type} (now : Nat) (item : T) (q : AsyncQueue T)
    (hc : q.cache.isSome = true) (hk : q.cacheKeyFn.isSome = true) :
    (push now item q).q.metrics.cacheHits + (push now item q).q.metrics.cacheMisses
      = q.metrics.cacheHits + q.metrics.cacheMisses + 1 := by
  obtain ⟨buf, res, nid, cach, keyf, ttl, ms, ds, m⟩ := q
  cases cach with
  | none => simp at hc
  | some c =>
    cases keyf with
    | none => simp at hk
    | some f =>
      simp only [push]
      cases hg : assocGet c (f item) with
      | none =>
        simp [hg, pushRest_cacheHits, pushRest_cacheMisses]
        omega
      | some e =>
        simp only [hg]
        split
        · cases res <;> simp [enqueueNode] <;> omega
        · simp [pushRest_cacheHits, pushRest_cacheMisses]
          omega

/-- Without a dedup cache, `push` never touches hit or miss counters and
the cache stays absent. -/
theorem push_cache_none_fields {T : Type} (now : Nat) (item : T) (q : AsyncQueue T)
    (h : q.cache = none) :
    (push now item q).q.metrics.cacheHits = q.metrics.cacheHits ∧
    (push now item q).q.metrics.cacheMisses = q.metrics.cacheMisses ∧
    (push now item q).q.cache = none := by
  have hs := push_cache_isSome now item q
  rw [h] at hs
  simp only [Option.isSome_none] at hs
  refine ⟨?_, ?_, ?_⟩
  · obtain ⟨buf, res, nid, cach, keyf, ttl, ms, ds, m⟩ := q
    cases cach with
    | none => cases keyf <;> simp [push, pushRest_cacheHits]
    | some c => simp at h
  · obtain ⟨buf, res, nid, cach, keyf, ttl, ms, ds, m⟩ := q
    cases cach with
    | none => cases keyf <;> simp [push, pushRest_cacheMisses]
    | some c => simp at h
  · cases hco : (push now item q).q.cache with
    | none => rfl
    | some c => rw [hco] at hs; simp at hs

theorem runPushes_cache_none {T : Type} (ops : List (Nat × T)) (q : AsyncQueue T)
    (h : q.cache = none) :
    (runPushes ops q).cache = none ∧
    (runPushes ops q).metrics.cacheHits = q.metrics.cacheHits ∧
    (runPushes ops q).metrics.cacheMisses = q.metrics.cacheMisses := by
  induction ops generalizing q with
  | nil => exact ⟨h, rfl, rfl⟩
  | cons op ops ih =>
    have hp := push_cache_none_fields op.1 op.2 q h
    have := ih (push op.1 op.2 q).q hp.2.2
    simp only [runPushes, List.foldl_cons] at *
    exact ⟨this.1, this.2.1.trans hp.1, this.2.2.trans hp.2.1⟩

theorem runPushes_dedup_preserved {T : Type} (ops : List (Nat × T)) (q : AsyncQueue T) :
    (runPushes ops q).cache.isSome = q.cache.isSome ∧
    (runPushes ops q).cacheKeyFn.isSome = q.cacheKeyFn.isSome := by
  induction ops generalizing q with
  | nil => exact ⟨rfl, rfl⟩
  | cons op ops ih =>
    have h1 := push_cache_isSome op.1 op.2 q
    have h2 := push_cacheKeyFn op.1 op.2 q
    have := ih (push op.1 op.2 q).q
    simp only [runPushes, List.foldl_cons] at *
    exact ⟨this.1.trans h1, this.2.trans (by rw [h2])⟩

end AsyncQueue

/-- C3 counterexample: a queue constructed WITH a `cacheKeyFn` but without
`enableCache` has no dedup cache at all — the constructor even discards
the supplied key function — and a push leaves `cacheHits = cacheMisses = 0`
with no cache, refuting "dedup is enabled exactly when a cache key
function is supplied". -/
theorem push_with_keyFn_no_enableCache_skips_dedup :
    let q0 : AsyncQueue Nat := mkQueue toString { cacheKeyFn := some (fun _ => "k") }
    let r := AsyncQueue.push 0 7 q0
    q0.cache = none ∧ q0.cacheKeyFn = none ∧
    r.q.metrics.cacheHits = 0 ∧ r.q.metrics.cacheMisses = 0 ∧ r.q.cache = none := by
  refine ⟨rfl, rfl, rfl, rfl, rfl⟩

/-- C3 amended: queue-level deduplication is enabled exactly when
`enableCache` is true (with `cacheKeyFn` defaulting to `JSON.stringify`).
When `enableCache` is not set, any sequence of pushes leaves
`cacheHits = cacheMisses = 0` and no dedup cache, whatever `cacheKeyFn`
was passed; when `enableCache` is set, every push performs exactly one
dedup-cache lookup (`cacheHits + cacheMisses` grows by one). -/
theorem queue_dedup_iff_enableCache {T : Type} (js : T → String) (o : QueueOptions T)
    (ops : List (Nat × T)) :
    (o.enableCache.getD false = false →
      (runPushes ops (mkQueue js o)).metrics.cacheHits = 0 ∧
      (runPushes ops (mkQueue js o)).metrics.cacheMisses = 0 ∧
      (runPushes ops (mkQueue js o)).cache = none) ∧
    (o.enableCache.getD false = true → ∀ now item,
      (AsyncQueue.push now item (runPushes ops (mkQueue js o))).q.metrics.cacheHits +
        (AsyncQueue.push now item (runPushes ops (mkQueue js o))).q.metrics.cacheMisses =
      (runPushes ops (mkQueue js o)).metrics.cacheHits +
        (runPushes ops (mkQueue js o)).metrics.cacheMisses + 1) := by
  constructor
  · intro h
    have h0 : (mkQueue js o).cache = none := by simp [mkQueue, h]
    have hr := AsyncQueue.runPushes_cache_none ops (mkQueue js o) h0
    have hm : (mkQueue js o).metrics.cacheHits = 0 := rfl
    have hm2 : (mkQueue js o).metrics.cacheMisses = 0 := rfl
    exact ⟨hr.2.1.trans hm, hr.2.2.trans hm2, hr.1⟩
  · intro h now item
    have h0 : (mkQueue js o).cache.isSome = true := by simp [mkQueue, h]
    have h1 : (mkQueue js o).cacheKeyFn.isSome = true := by simp [mkQueue, h]
    have hp := AsyncQueue.runPushes_dedup_preserved ops (mkQueue js o)
    exact AsyncQueue.push_counts now item _ (hp.1.trans h0) (hp.2.trans h1)

/-- C3 witness: both branches of the amended theorem at concrete inputs. -/
theorem queue_dedup_iff_enableCache_witness :
    ((runPushes [(0, 5)] (mkQueue toString ({ cacheKeyFn := some fun _ => "x" } : QueueOptions Nat))).metrics.cacheHits = 0 ∧
     (runPushes [(0, 5)] (mkQueue toString ({ cacheKeyFn := some fun _ => "x" } : QueueOptions Nat))).metrics.cacheMisses = 0 ∧
     (runPushes [(0, 5)] (mkQueue toString ({ cacheKeyFn := some fun _ => "x" } : QueueOptions Nat))).cache = none) ∧
    ((AsyncQueue.push 3 9 (runPushes [] (mkQueue toString ({ enableCache := some true } : QueueOptions Nat)))).q.metrics.cacheHits +
     (AsyncQueue.push 3 9 (runPushes [] (mkQueue toString ({ enableCache := some true } : QueueOptions Nat)))).q.metrics.cacheMisses =
     (runPushes [] (mkQueue toString ({ enableCache := some true } : QueueOptions Nat))).metrics.cacheHits +
     (runPushes [] (mkQueue toString ({ enableCache := some true } : QueueOptions Nat))).metrics.cacheMisses + 1) :=
  ⟨(queue_dedup_iff_enableCache toString { cacheKeyFn := some fun _ => "x" } [(0, 5)]).1 rfl,
   (queue_dedup_iff_enableCache toString { enableCache := some true } []).2 rfl 3 9⟩

/-! ## Claim C4 -/

/-- Queue of the capacity-bypass run: `maxSize = 1`, dedup enabled with a
constant key. -/
def c4Queue : AsyncQueue Nat :=
  mkQueue toString
    { maxSize := some 1, enableCache := some true, cacheKeyFn := some (fun _ => "k") }

/-- C4: a dedup hit delivers before the capacity check ever runs, so with
`maxSize = 1`, pushing 1 (buffered) and then a duplicate push (no waiting
consumer, entry not expired) returns `true` and leaves two buffered items
— the buffered length exceeds `maxSize`. -/
theorem dedup_hit_bypasses_capacity :
    let q1 : AsyncQueue Nat := (AsyncQueue.push 0 1 c4Queue).q
    let r := AsyncQueue.push 10 2 q1
    c4Queue.maxSize = some 1 ∧ q1.buffer = [1] ∧
    r.returned = some true ∧ r.q.buffer = [1, 1] ∧ 1 < r.q.buffer.length := by
  refine ⟨rfl, rfl, rfl, rfl, by decide⟩

/-! ## Claim C5 -/

/-- Queue of the coalescing run: dedup enabled with a constant key
function, default TTL. -/
def c5Queue : AsyncQueue Nat :=
  mkQueue toString { enableCache := some true, cacheKeyFn := some (fun _ => "k") }

/-- C5: pushing V1 = 5, then V2 = 7 before V1's dedup entry expires, then
calling `next()` twice yields V1 both times (the duplicate push coalesces
to the first-seen value) and the metrics report `cacheHits = 1`. -/
theorem dedup_coalesces_to_first_value :
    let q2 : AsyncQueue Nat := (AsyncQueue.push 10 7 (AsyncQueue.push 0 5 c5Queue).q).q
    let n1 := AsyncQueue.next natTruthy q2
    let n2 := AsyncQueue.next natTruthy n1.2
    n1.1 = some 5 ∧ n2.1 = some 5 ∧ q2.metrics.cacheHits = 1 := by
  refine ⟨rfl, rfl, rfl⟩

/-! ## Claim C6 -/

/-- Queue of the drop-oldest run: `maxSize = 2`, `dropStrategy = oldest`,
no dedup. -/
def c6Queue : AsyncQueue Nat :=
  mkQueue toString { maxSize := some 2, dropStrategy := some .oldest }

/-- C6: pushing A = 1, B = 2, C = 3 all return `true`; the third push
evicts the head A, leaving the buffer `[B, C]` in FIFO order with
`dropped = 1`. -/
theorem drop_oldest_evicts_head :
    let r1 : PushResult Nat := AsyncQueue.push 0 1 c6Queue
    let r2 := AsyncQueue.push 0 2 r1.q
    let r3 := AsyncQueue.push 0 3 r2.q
    r1.returned = some true ∧ r2.returned = some true ∧ r3.returned = some true ∧
    r3.q.buffer = [2, 3] ∧ r3.q.metrics.dropped = 1 := by
  refine ⟨rfl, rfl, rfl, rfl, rfl⟩

/-! ## Claims C8 and C9: cache lemmas -/

theorem assocSet_length_le {A : Type} (l : List (String × A)) (k : String) (v : A) :
    (assocSet l k v).length ≤ l.length + 1 := by
  induction l with
  | nil => simp [assocSet]
  | cons ke rest ih =>
    by_cases h : ke.1 = k
    · simp [assocSet, h]
    · simp only [assocSet, if_neg h, List.length_cons]
      omega

theorem assocGet_eq_none {A : Type} (l : List (String × A)) (k : String)
    (h : k ∉ l.map Prod.fst) : assocGet l k = none := by
  induction l with
  | nil => rfl
  | cons ke rest ih =>
    simp only [List.map_cons, List.mem_cons] at h
    push_neg at h
    have hne : ke.1 ≠ k := fun hk => h.1 hk.symm
    simp only [assocGet, if_neg hne]
    exact ih h.2

theorem assocGet_assocErase_self {A : Type} (l : List (String × A)) (k : String)
    (h : (l.map Prod.fst).Nodup) : assocGet (assocErase l k) k = none := by
  induction l with
  | nil => rfl
  | cons ke rest ih =>
    simp only [List.map_cons, List.nodup_cons] at h
    by_cases hk : ke.1 = k
    · simp only [assocErase, if_pos hk]
      exact assocGet_eq_none rest k (hk ▸ h.1)
    · simp only [assocErase, if_neg hk, assocGet, if_neg hk]
      exact ih h.2

namespace LruCache

/-- A terminated eviction loop ends below the limits or empty. -/
theorem evictLoop_post {T : Type} (opts : CacheOpts T) (es : Nat) (fuel : Nat) :
    ∀ c c' : LruCache T, evictLoop opts es fuel c = some c' →
      overLimit opts es c' = false ∨ c'.entries.length = 0 := by
  induction fuel with
  | zero =>
    intro c c' h
    unfold evictLoop at h
    split at h
    · exact absurd h (by simp)
    · cases h
      left
      simp_all
  | succ fuel ih =>
    intro c c' h
    unfold evictLoop at h
    split at h
    · split at h
      · cases h
        right
        assumption
      · exact ih _ _ h
    · cases h
      left
      simp_all

/-- C8: after any `set` call that returns (on any prior cache state, so in
particular after each call of any sequence of `set` calls), a cache
configured with `maxEntries = N` for positive `N` holds at most `N`
entries: the eviction loop drives the count below `N` (or to zero) before
the single insertion. -/
theorem set_respects_maxEntries {T : Type} (opts : CacheOpts T) (N : Nat) (hN : 0 < N)
    (hmax : opts.maxEntries = some N) (now : Nat) (c c' : LruCache T) (k : String) (v : T)
    (h : set opts now c k v = some c') :
    c'.entries.length ≤ N := by
  unfold set at h
  rw [Option.map_eq_some'] at h
  obtain ⟨c1, h1, h2⟩ := h
  unfold evictToMakeRoomFor at h1
  have hpost := evictLoop_post opts (opts.sizeOf v) _ _ _ h1
  subst h2
  simp only
  have hlen := assocSet_length_le c1.entries k { value := v, lastAccess := now, createdAt := now }
  rcases hpost with hov | hz
  · unfold overLimit at hov
    rw [hmax] at hov
    simp only [Bool.or_eq_false_iff, decide_eq_false_iff_not, not_le] at hov
    omega
  · omega

/-- C9: a `get` whose entry has outlived the ttl reports the key absent,
fires `onEvict` for exactly that entry, and removes it from the map, so a
subsequent `peek` with no intervening `set` is also absent. -/
theorem get_expired_evicts {T : Type} (opts : CacheOpts T) (now : Nat) (c : LruCache T)
    (k : String) (e : CacheEntry T)
    (hnd : (c.entries.map Prod.fst).Nodup)
    (hget : assocGet c.entries k = some e)
    (hexp : isExpired opts now e = true) :
    (get opts now c k).1 = none ∧
    (get opts now c k).2.evictLog = c.evictLog ++ [(k, e.value)] ∧
    peek (get opts now c k).2 k = none := by
  unfold get
  simp only [hget, hexp, if_true]
  unfold delete_
  simp only [hget]
  refine ⟨trivial, trivial, ?_⟩
  unfold peek
  simp only
  rw [assocGet_assocErase_self c.entries k hnd]
  rfl

end LruCache

/-- Configuration of the C8 witness run: `maxEntries = 1`. -/
def c8Opts : CacheOpts Nat := { maxEntries := some 1, sizeOf := fun n => n }

/-- C8 witness: a concrete `set` on the empty cache returns and respects
the bound. -/
theorem set_respects_maxEntries_witness :
    ({ entries := [("a", { value := 5, lastAccess := 0, createdAt := 0 })],
       currentBytes := 5, evictLog := [] } : LruCache Nat).entries.length ≤ 1 :=
  LruCache.set_respects_maxEntries c8Opts 1 (by decide) rfl 0 {} _ "a" 5 rfl

/-- Configuration of the C9 witness run: `ttlMs = 5`. -/
def c9Opts : CacheOpts Nat := { ttlMs := some 5 }

/-- Cache state of the C9 witness run: one entry created at time 0. -/
def c9Cache : LruCache Nat :=
  { entries := [("a", { value := 3, lastAccess := 0, createdAt := 0 })] }

/-- C9 witness: reading the entry at time 10 (age 10 > ttl 5) evicts it. -/
theorem get_expired_evicts_witness :
    (LruCache.get c9Opts 10 c9Cache "a").1 = none ∧
    (LruCache.get c9Opts 10 c9Cache "a").2.evictLog = c9Cache.evictLog ++ [("a", 3)] ∧
    LruCache.peek (LruCache.get c9Opts 10 c9Cache "a").2 "a" = none :=
  LruCache.get_expired_evicts c9Opts 10 c9Cache "a"
    { value := 3, lastAccess := 0, createdAt := 0 } (by decide) rfl rfl

/-! ## Claim C7: worker pool -/


theorem countP_reverse' {A : Type} (p : A → Bool) (l : List A) :
    l.reverse.countP p = l.countP p := by
  induction l with
  | nil => rfl
  | cons a l ih => simp [List.countP_append, List.countP_cons, ih]

theorem countP_not_add {A : Type} (p : A → Bool) (l : List A) :
    l.countP (fun a => !(p a)) + l.countP p = l.length := by
  induction l with
  | nil => rfl
  | cons a l ih =>
    simp only [List.countP_cons, List.length_cons]
    cases h : p a <;> simp [h] <;> omega

theorem length_filterMap_errOf {T E : Type} (fn : T → Except E Unit) (l : List T) :
    (l.filterMap (errOf fn)).length = l.countP (fun i => isFailure (fn i)) := by
  induction l with
  | nil => rfl
  | cons a l ih =>
    simp only [List.filterMap_cons, List.countP_cons]
    cases h : fn a <;> simp [errOf, isFailure, h, ih]

theorem mem_errOf_spec {T E : Type} (fn : T → Except E Unit) (l : List T)
    (p : E × T) (hp : p ∈ l.filterMap (errOf fn)) : fn p.2 = Except.error p.1 := by
  rw [List.mem_filterMap] at hp
  obtain ⟨a, _, ha⟩ := hp
  unfold errOf at ha
  cases h : fn a with
  | ok u => rw [h] at ha; exact absurd ha (by simp)
  | error e =>
    rw [h] at ha
    simp only [Option.some.injEq] at ha
    subst ha
    simpa using h

theorem workerSteps_drain {T E : Type} (fn : T → Except E Unit) (total minC active : Nat)
    (hA : active ≤ minC) :
    ∀ (pending : List T) (fuel : Nat) (st : WorkState T E), pending.length < fuel →
      (workerSteps fn total minC 1 false active fuel pending st).1 = [] ∧
      (workerSteps fn total minC 1 false active fuel pending st).2.completed
        = st.completed + pending.countP (fun i => !(isFailure (fn i))) ∧
      (workerSteps fn total minC 1 false active fuel pending st).2.failed
        = st.failed + pending.countP (fun i => isFailure (fn i)) ∧
      (workerSteps fn total minC 1 false active fuel pending st).2.errorLog
        = st.errorLog ++ pending.filterMap (errOf fn) := by
  intro pending
  induction pending with
  | nil =>
    intro fuel st h
    cases fuel with
    | zero => simp at h
    | succ f => unfold workerSteps; simp
  | cons item rest ih =>
    intro fuel st h
    cases fuel with
    | zero => simp at h
    | succ f =>
      have hred : workerSteps fn total minC 1 false active (f + 1) (item :: rest) st
          = workerSteps fn total minC 1 false active f rest (processItem fn total st item) := by
        have hr : ¬(ceilDiv (rest.length + 1) 1 < active ∧ minC < active) :=
          fun hh => absurd hh.2 (by omega)
        rw [workerSteps]
        simp [hr, processBatch]
      rw [hred]
      have hlen : rest.length < f := by simp at h; omega
      obtain ⟨ih1, ih2, ih3, ih4⟩ := ih f (processItem fn total st item) hlen
      refine ⟨ih1, ?_, ?_, ?_⟩
      · rw [ih2]
        cases hfn : fn item <;>
          simp [processItem, hfn, List.countP_cons, isFailure] <;> omega
      · rw [ih3]
        cases hfn : fn item <;>
          simp [processItem, hfn, List.countP_cons, isFailure] <;> omega
      · rw [ih4]
        cases hfn : fn item <;>
          simp [processItem, errOf, hfn, isFailure]

theorem runWorkers_nil {T E : Type} (fn : T → Except E Unit) (total minC bs : Nat)
    (batching : Bool) :
    ∀ (n active : Nat) (st : WorkState T E),
      runWorkers fn total minC bs batching n active [] st = ([], st) := by
  intro n
  induction n with
  | zero => intro active st; rfl
  | succ n ih =>
    intro active st
    unfold runWorkers workerSteps
    simp [ih]

/-- C7: for any worker pool run (any concurrency spec with a positive
minimum, default options) over 10 items of which `fn` rejects exactly 3,
`work` returns with `completed = 7`, `failed = 3`, `total = 10`, the
`onError` callback invoked exactly 3 times, each invocation carrying a
failing item with the error `fn` rejected with — failures are isolated
per item and the run completes. -/
theorem work_isolates_failures {T E : Type} (conc : Concurrency) (items : List T)
    (fn : T → Except E Unit)
    (hmin : 1 ≤ conc.minOf) (hlen : items.length = 10)
    (hfail : items.countP (fun i => isFailure (fn i)) = 3) :
    (work conc items fn {}).1.completed = 7 ∧
    (work conc items fn {}).1.failed = 3 ∧
    (work conc items fn {}).1.total = 10 ∧
    (work conc items fn {}).2.errorLog.length = 3 ∧
    (∀ p ∈ (work conc items fn {}).2.errorLog, fn p.2 = Except.error p.1) := by
  have hIW : 1 ≤ min conc.minOf (ceilDiv items.length 1) := by
    have hc : ceilDiv items.length 1 = items.length := by unfold ceilDiv; omega
    rw [hc, hlen]
    omega
  obtain ⟨m, hm⟩ : ∃ m, min conc.minOf (ceilDiv items.length 1) = m + 1 :=
    ⟨min conc.minOf (ceilDiv items.length 1) - 1, by omega⟩
  have hA : m + 1 ≤ conc.minOf := hm ▸ Nat.min_le_left conc.minOf (ceilDiv items.length 1)
  have hkey := workerSteps_drain fn items.length conc.minOf (m + 1) hA items.reverse
    (items.reverse.length + 1) {} (by omega)
  have hw : (work conc items fn {}).2
      = (workerSteps fn items.length conc.minOf 1 false (m + 1)
          (items.reverse.length + 1) items.reverse ({} : WorkState T E)).2 := by
    unfold work
    simp only [Option.getD_none]
    rw [hm]
    have hd : (decide (1 > 1)) = false := rfl
    rw [hd]
    simp only [runWorkers]
    rw [hkey.1, runWorkers_nil]
  obtain ⟨hk1, hk2, hk3, hk4⟩ := hkey
  have hco : items.countP (fun i => !(isFailure (fn i))) = 7 := by
    have hadd := countP_not_add (fun i => isFailure (fn i)) items
    omega
  have hfr : items.reverse.countP (fun i => isFailure (fn i)) = 3 := by
    rw [countP_reverse']
    exact hfail
  have hcr : items.reverse.countP (fun i => !(isFailure (fn i))) = 7 := by
    rw [countP_reverse']
    exact hco
  have e1 : (work conc items fn {}).1.completed = (work conc items fn {}).2.completed := rfl
  have e2 : (work conc items fn {}).1.failed = (work conc items fn {}).2.failed := rfl
  have e3 : (work conc items fn {}).1.total = items.length := rfl
  refine ⟨?_, ?_, ?_, ?_, ?_⟩
  · rw [e1, hw, hk2, hcr]
  · rw [e2, hw, hk3, hfr]
  · rw [e3, hlen]
  · rw [hw, hk4]
    simp only [List.nil_append, List.length_append, List.length_nil]
    rw [length_filterMap_errOf, hfr]
  · intro p hp
    rw [hw, hk4] at hp
    simp only [List.nil_append] at hp
    exact mem_errOf_spec fn items.reverse p hp

/-- The user operation of the C7 witness run: rejects items 0, 1, 2. -/
def c7fn : Nat → Except Nat Unit := fun n => if n < 3 then Except.error n else Except.ok ()

/-- The ten items of the C7 witness run. -/
def c7Items : List Nat := [0, 1, 2, 3, 4, 5, 6, 7, 8, 9]

/-- C7 witness: a concrete run with three failing items. -/
theorem work_isolates_failures_witness :
    (work (Concurrency.range 1 4) c7Items c7fn {}).1.completed = 7 ∧
    (work (Concurrency.range 1 4) c7Items c7fn {}).1.failed = 3 ∧
    (work (Concurrency.range 1 4) c7Items c7fn {}).1.total = 10 ∧
    (work (Concurrency.range 1 4) c7Items c7fn {}).2.errorLog.length = 3 ∧
    (∀ p ∈ (work (Concurrency.range 1 4) c7Items c7fn {}).2.errorLog,
      c7fn p.2 = Except.error p.1) :=
  work_isolates_failures (Concurrency.range 1 4) c7Items c7fn (by decide) (by decide) (by decide)
